import Mathlib

/-!
# Verification model of the mdns query client (`client.go`)

A shallow embedding of the mdns client: the query-parameter defaulting in
`QueryContext`, the socket set constructed by `newClient` and the reader
tasks it spawns, and the response-correlation loop of `Client.query`
(`ensureName`, `alias`, record processing, completion and emission).

Go `map[string]*ServiceEntry` is modelled as an association list from names
to indices into an explicit heap of entries, so that the pointer aliasing
set up by `alias` is visible: two names bound to the same index denote the
same mutable entry.  Go byte slices (`net.IP`) are lists of `Nat`.
External collaborators (OS socket binds, the DNS wire codec, channels) are
modelled at their call boundary: bind outcomes are boolean inputs, decoded
messages are structured values, and the non-blocking channel send is a
record of attempted emissions.
-/

set_option linter.unusedVariables false

/- ===== Types borrowed from the `net` package (collaborators) ===== -/

/-- Go `net.IP.To4`: a 4-byte address is returned as is; a 16-byte
IPv4-mapped address (ten zero bytes, then `0xff 0xff`) yields its last four
bytes; anything else yields `nil` (`none`). -/
def ipTo4 : List Nat → Option (List Nat)
  | [a, b, c, d] => some [a, b, c, d]
  | [0, 0, 0, 0, 0, 0, 0, 0, 0, 0, 255, 255, a, b, c, d] => some [a, b, c, d]
  | _ => none

/-- Go `net.IP.IsLinkLocalUnicast`: `169.254.0.0/16` for IPv4, `fe80::/10`
for a 16-byte address. -/
def isLinkLocalUnicast (ip : List Nat) : Bool :=
  match ipTo4 ip with
  | some ip4 => ip4[0]? == some 169 && ip4[1]? == some 254
  | none => ip.length == 16 && ip[0]? == some 254 && ((ip[1]?).getD 0) &&& 192 == 128

/-- Go `net.IP.IsLinkLocalMulticast`: `224.0.0.0/24` for IPv4, `ff02::/16`
(first byte `0xff`, low nibble of second byte `2`) for a 16-byte address. -/
def isLinkLocalMulticast (ip : List Nat) : Bool :=
  match ipTo4 ip with
  | some ip4 => ip4[0]? == some 224 && ip4[1]? == some 0 && ip4[2]? == some 0
  | none => ip.length == 16 && ip[0]? == some 255 && ((ip[1]?).getD 0) &&& 15 == 2

/-- Go `net.IPAddr`: an IP with a zone (scope) qualifier. -/
structure IPAddr where
  IP : List Nat
  Zone : String
deriving DecidableEq

/-- Go `net.UDPAddr`: source address of a received datagram. -/
structure UDPAddr where
  IP : List Nat
  Port : Nat
  Zone : String
deriving DecidableEq

/- ===== QueryParam and QueryContext (client.go lines 44-96) ===== -/

/-- `QueryParam` from client.go.  The channel, interface and logger fields
are external collaborators and carry no data the defaulting logic reads.
Field defaults are the Go zero values. -/
structure QueryParam where
  Service : String := ""
  Domain : String := ""
  Timeout : Nat := 0   -- time.Duration in nanoseconds
  WantUnicastResponse : Bool := false
  DisableIPv4 : Bool := false
  DisableIPv6 : Bool := false
deriving DecidableEq

/-- The body of `QueryContext`'s defaulting loop applied to one parameter
value: empty `Domain` becomes `"local"`, zero `Timeout` becomes one second
(`time.Second` = 1e9 ns). -/
def defaultedParam (par : QueryParam) : QueryParam :=
  let par1 := if par.Domain = "" then { par with Domain := "local" } else par
  if par1.Timeout = 0 then { par1 with Timeout := 1000000000 } else par1

/-- The parameter list `QueryContext` actually passes to `Client.query`.
In the source the loop is `for _, par := range *params`: Go binds `par` to
a copy of each slice element, so the writes `par.Domain = "local"` and
`par.Timeout = time.Second` update only the copy and the slice handed to
`query` is the original, unmodified. -/
def queryContextDispatchedParams (params : List QueryParam) : List QueryParam :=
  params

/-- The deadline of the correlation loop in `Client.query`:
`finish := time.After(2 * time.Second)` — a fixed 2-second window
(nanoseconds); the per-query `Timeout` field is never read. -/
def queryWindowNanos (params : List QueryParam) : Nat :=
  2 * 1000000000

/- ===== newClient socket setup (client.go lines 129-206) ===== -/

/-- The socket-owning fields of `Client`.  A `true` connection field means
the corresponding `*net.UDPConn` is non-nil. -/
structure ClientModel where
  use_ipv4 : Bool
  use_ipv6 : Bool
  ipv4UnicastConn : Bool
  ipv6UnicastConn : Bool
  ipv4MulticastConn : Bool
  ipv6MulticastConn : Bool
deriving DecidableEq

/-- `newClient` with the OS bind outcomes (`net.ListenUDP` /
`net.ListenMulticastUDP` succeeding or failing) supplied as boolean inputs.
Mirrors the source order: enable check; unicast binds with the
"any unicast" check; multicast binds with the "any multicast" check; the
IPv4 unicast+multicast pairing check (the source has no IPv6 counterpart);
the final enable check.  `SetInterface` is an external call modelled as
succeeding. -/
def newClientModel (v4 v6 bindU4 bindU6 bindM4 bindM6 : Bool) :
    Except String ClientModel :=
  if !v4 && !v6 then
    Except.error "Must enable at least one of IPv4 and IPv6 querying"
  else
    let uconn4 := v4 && bindU4
    let uconn6 := v6 && bindU6
    if !uconn4 && !uconn6 then
      Except.error "failed to bind to any unicast udp port"
    else
      let mconn4 := v4 && bindM4
      let mconn6 := v6 && bindM6
      if !mconn4 && !mconn6 then
        Except.error "failed to bind to any multicast udp port"
      else
        let drop4 := !uconn4 || !mconn4
        let uconn4 := if drop4 then false else uconn4
        let mconn4 := if drop4 then false else mconn4
        let v4 := if drop4 then false else v4
        if !v4 && !v6 then
          Except.error "at least one of IPv4 and IPv6 must be enabled for querying"
        else
          Except.ok {
            use_ipv4 := v4
            use_ipv6 := v6
            ipv4UnicastConn := uconn4
            ipv6UnicastConn := uconn6
            ipv4MulticastConn := mconn4
            ipv6MulticastConn := mconn6
          }

/-- The four socket slots of a `Client`. -/
inductive SocketKind where
  | ipv4Unicast
  | ipv4Multicast
  | ipv6Unicast
  | ipv6Multicast
deriving DecidableEq

/-- Whether the client's connection in the given slot is non-nil. -/
def ClientModel.conn (c : ClientModel) : SocketKind → Bool
  | SocketKind.ipv4Unicast => c.ipv4UnicastConn
  | SocketKind.ipv4Multicast => c.ipv4MulticastConn
  | SocketKind.ipv6Unicast => c.ipv6UnicastConn
  | SocketKind.ipv6Multicast => c.ipv6MulticastConn

/-- All four socket slots. -/
def allSocketKinds : List SocketKind :=
  [SocketKind.ipv4Unicast, SocketKind.ipv4Multicast,
   SocketKind.ipv6Unicast, SocketKind.ipv6Multicast]

/-- The non-nil sockets of a client. -/
def openSockets (c : ClientModel) : List SocketKind :=
  allSocketKinds.filter c.conn

/-- The sockets on which `newClient` spawns a `recv` task: the source
(lines 203-204) runs exactly `go c.recv(c.ipv4UnicastConn, c.MsgChan)` and
`go c.recv(c.ipv4MulticastConn, c.MsgChan)`. -/
def recvSpawnTargets : List SocketKind :=
  [SocketKind.ipv4Unicast, SocketKind.ipv4Multicast]

/-- The sockets that end up with a running reader loop: `recv` returns
immediately when its connection argument is nil, so of the spawned tasks
only those on non-nil sockets read datagrams. -/
def activeReaderSockets (c : ClientModel) : List SocketKind :=
  recvSpawnTargets.filter c.conn

/- ===== DNS records and the correlator state (client.go lines 260-446) ===== -/

/-- The resource-record variants the correlator's `switch` matches
(`dns.PTR`, `dns.SRV`, `dns.TXT`, `dns.A`, `dns.AAAA`); every other record
type falls through the switch (`other`). -/
inductive RR where
  | ptr (hdrName : String) (Ptr : String)
  | srv (hdrName : String) (Target : String) (Port : Nat)
  | txt (hdrName : String) (Txt : List String)
  | a (hdrName : String) (A : List Nat)
  | aaaa (hdrName : String) (AAAA : List Nat)
  | other
deriving DecidableEq

/-- A decoded `dns.Msg`: the correlator iterates
`append(resp.msg.Answer, resp.msg.Extra...)`. -/
structure Msg where
  Answer : List RR
  Extra : List RR
deriving DecidableEq

/-- `msgAddr`: a decoded message with the source address of the datagram. -/
structure MsgAddr where
  msg : Msg
  src : UDPAddr
deriving DecidableEq

/-- `ServiceEntry` from client.go.  Field defaults are the Go zero values
(nil pointers and slices are `none`). -/
structure ServiceEntry where
  Name : String
  Host : String := ""
  AddrV4 : Option (List Nat) := none
  AddrV6 : Option (List Nat) := none
  AddrV6IPAddr : Option IPAddr := none
  Port : Nat := 0
  Info : String := ""
  InfoFields : List String := []
  SrcIP : Option (List Nat) := none
  Addr : Option (List Nat) := none
  hasTXT : Bool := false
  sent : Bool := false
deriving DecidableEq

/-- `ServiceEntry.complete` from client.go: unconditionally `true` (the
stricter address+port+text check is commented out in the source). -/
def ServiceEntry.complete (s : ServiceEntry) : Bool :=
  true

/-- Slice indexing into the heap of entries. -/
def heapGet : List ServiceEntry → Nat → Option ServiceEntry
  | [], _ => none
  | e :: _, 0 => some e
  | _ :: rest, n + 1 => heapGet rest n

/-- In-place update of the heap entry at an index (identity if out of
range): the effect of writing through a `*ServiceEntry`. -/
def modifyAt : List ServiceEntry → Nat → (ServiceEntry → ServiceEntry) → List ServiceEntry
  | [], _, _ => []
  | e :: rest, 0, f => f e :: rest
  | e :: rest, n + 1, f => e :: modifyAt rest n f

/-- Occurrence count of an index in the emission log. -/
def countNat : List Nat → Nat → Nat
  | [], _ => 0
  | j :: rest, i => (if j = i then 1 else 0) + countNat rest i

/-- The state owned by one `query` invocation: the entry heap (the
`*ServiceEntry` objects), the in-progress name table (`inprogress`,
Go map modelled as an association list where the most recent binding
shadows), and the log of entries offered to the output channel.  The
channel send is non-blocking (`select` with `default`), so `outs` records
the at-most attempted emissions; actual deliveries are a subsequence. -/
structure QState where
  heap : List ServiceEntry
  names : List (String × Nat)
  outs : List Nat
deriving DecidableEq

/-- Go map lookup on the name table. -/
def lookupName : List (String × Nat) → String → Option Nat
  | [], _ => none
  | (k, i) :: rest, name => if k = name then some i else lookupName rest name

/-- Every name binding points into the heap (holds for all reachable
states). -/
def namesOK (s : QState) : Bool :=
  s.names.all (fun p => decide (p.2 < s.heap.length))

/-- `ensureName` from client.go: return the existing entry for the name,
or allocate a fresh `&ServiceEntry{Name: name}` and bind the name to it. -/
def ensureName (s : QState) (name : String) : QState × Nat :=
  match lookupName s.names name with
  | some i => (s, i)
  | none =>
      let i := s.heap.length
      ({ s with heap := s.heap ++ [{ Name := name }],
                names := (name, i) :: s.names }, i)

/-- `alias` from client.go: `srcEntry := ensureName(inprogress, src);
inprogress[dst] = srcEntry` — `dst` is unconditionally rebound to `src`'s
entry.  (`alias` is a Lean keyword, hence the name `aliasName`.) -/
def aliasName (s : QState) (src dst : String) : QState :=
  let r := ensureName s src
  { r.1 with names := (dst, r.2) :: r.1.names }

/-- Write through the pointer at heap index `i`. -/
def setEntry (s : QState) (i : Nat) (f : ServiceEntry → ServiceEntry) : QState :=
  { s with heap := modifyAt s.heap i f }

/-- Read through the pointer at heap index `i` (total form; every index the
correlator dereferences is in range). -/
def getEntryD (s : QState) (i : Nat) : ServiceEntry :=
  (heapGet s.heap i).getD { Name := "" }

/-- One arm of the correlator's `switch rr := answer.(type)`.  Returns the
updated state and the entry assigned to the loop-local `inp` (none for
record types the switch does not match). -/
def processRecord (src : UDPAddr) (s : QState) (rr : RR) : QState × Option Nat :=
  match rr with
  | RR.ptr _ p =>
      let r := ensureName s p
      (r.1, some r.2)
  | RR.srv name target port =>
      let s1 := if target ≠ name then aliasName s name target else s
      let r := ensureName s1 name
      (setEntry r.1 r.2 (fun e => { e with Host := target, Port := port }), some r.2)
  | RR.txt name txtl =>
      let r := ensureName s name
      (setEntry r.1 r.2 (fun e =>
        { e with Info := String.intercalate "|" txtl,
                 InfoFields := txtl,
                 hasTXT := true }), some r.2)
  | RR.a name ipa =>
      let r := ensureName s name
      (setEntry r.1 r.2 (fun e => { e with Addr := some ipa, AddrV4 := some ipa }), some r.2)
  | RR.aaaa name ipa =>
      let r := ensureName s name
      (setEntry r.1 r.2 (fun e =>
        { e with Addr := some ipa,
                 AddrV6 := some ipa,
                 AddrV6IPAddr := some {
                   IP := ipa,
                   Zone := if isLinkLocalUnicast ipa || isLinkLocalMulticast ipa
                           then src.Zone else "" } }), some r.2)
  | RR.other => (s, none)

/-- The correlator's inner `for _, answer := range append(Answer, Extra...)`
loop: threads the state and the loop-local `inp` (the entry touched by the
most recent matching record). -/
def processRecords (src : UDPAddr) : QState × Option Nat → List RR → QState × Option Nat
  | acc, [] => acc
  | acc, rr :: rest =>
      let r := processRecord src acc.1 rr
      processRecords src (r.1, match r.2 with | some j => some j | none => acc.2) rest

/-- The tail of `query`'s per-message handling, after the record loop left
the state `s` and the loop-local `inp` (`o`): if no record matched
(`inp == nil`) do nothing; otherwise set the touched entry's `SrcIP` from
the packet source, and if the entry is complete and not yet sent, mark it
sent and offer it to the output channel (non-blocking; `pushOut` records
the attempted emission in the log). -/
def pushOut (s : QState) (i : Nat) : QState :=
  { s with outs := s.outs ++ [i] }

def finishMsg (srcIP : List Nat) (s : QState) (o : Option Nat) : QState :=
  match o with
  | none => s
  | some i =>
      let s2 := setEntry s i (fun e => { e with SrcIP := some srcIP })
      if (getEntryD s2 i).complete then
        if (getEntryD s2 i).sent then s2
        else pushOut (setEntry s2 i (fun e => { e with sent := true })) i
      else
        s2  -- dead branch: a node-specific follow-up query, no state change

/-- Handling of one received message in `query`: the record loop followed
by the `SrcIP`/completion/emission tail. -/
def processMsg (s : QState) (m : MsgAddr) : QState :=
  let r := processRecords m.src (s, none) (m.msg.Answer ++ m.msg.Extra)
  finishMsg m.src.IP r.1 r.2

/-- The correlation loop over the messages drained from `MsgChan` before
the deadline fires. -/
def processMsgs (s : QState) (msgs : List MsgAddr) : QState :=
  msgs.foldl processMsg s

/-- `inprogress := make(map[string]*ServiceEntry)`: the empty state at the
start of each `query` invocation. -/
def initState : QState :=
  { heap := [], names := [], outs := [] }

/-- The state after the first record for `nm` allocates its entry. -/
def singletonState (nm : String) : QState :=
  { heap := [{ Name := nm }], names := [(nm, 0)], outs := [] }

/-- `query`'s correlation phase and return value: process what arrived in
the window, then `case <-finish: return nil` — the error result is `none`
whether or not anything was emitted. -/
def queryRun (msgs : List MsgAddr) : QState × Option String :=
  (processMsgs initState msgs, none)

/-- `sent` flag of the heap entry at an index (false if out of range). -/
def sentAt (s : QState) (i : Nat) : Bool :=
  match heapGet s.heap i with
  | some e => e.sent
  | none => false

/-- `SrcIP` field of the heap entry at an index, if the entry exists. -/
def srcIPAt (s : QState) (i : Nat) : Option (Option (List Nat)) :=
  (heapGet s.heap i).map ServiceEntry.SrcIP

/-- `sent` field of the heap entry at an index, if the entry exists. -/
def sentOptAt (s : QState) (i : Nat) : Option Bool :=
  (heapGet s.heap i).map ServiceEntry.sent

/-- Invariant of the correlation loop: bindings point into the heap, every
index in the emission log has its `sent` flag set, and no index was offered
to the channel twice. -/
def QInv (s : QState) : Prop :=
  namesOK s = true ∧ (∀ i ∈ s.outs, sentAt s i = true) ∧ (∀ i, countNat s.outs i ≤ 1)

/- ===== Concrete sample data used by witnesses ===== -/

/-- A two-entry state for the C9 witness. -/
def twoEntryState : QState :=
  { heap := [{ Name := "a.", Port := 1 }, { Name := "b.", Port := 2 }],
    names := [("a.", 0), ("b.", 1)],
    outs := [] }

/-- A link-local IPv6 sender address with a zone, for the C8 witness. -/
def llSender : UDPAddr :=
  { IP := [254, 128, 0, 0, 0, 0, 0, 0, 0, 0, 0, 0, 0, 0, 0, 9], Port := 5353, Zone := "eth0" }

/-- A link-local IPv6 payload address, for the C8 witness. -/
def llPayload : List Nat :=
  [254, 128, 0, 0, 0, 0, 0, 0, 0, 0, 0, 0, 0, 0, 0, 1]

/-- A message touching two distinct names, for the C10 witness: the last
matching record is for `"b."`. -/
def twoNameMsg : MsgAddr :=
  { msg := { Answer := [RR.a "a." [1, 2, 3, 4], RR.a "b." [5, 6, 7, 8]], Extra := [] },
    src := { IP := [9, 9, 9, 9], Port := 5353, Zone := "" } }

/-- A protocol is usable in the sense of the spec when both its unicast and
its multicast socket were bound. -/
def ClientModel.ipv4Usable (c : ClientModel) : Bool :=
  c.ipv4UnicastConn && c.ipv4MulticastConn

/-- IPv6 counterpart of `ipv4Usable`. -/
def ClientModel.ipv6Usable (c : ClientModel) : Bool :=
  c.ipv6UnicastConn && c.ipv6MulticastConn

/-- A global (non-link-local) IPv6 address, for the C7 witness. -/
def c7IPv6 : List Nat := [32, 1, 0, 0, 0, 0, 0, 0, 0, 0, 0, 0, 0, 0, 0, 7]

/-- The four records of one name in the order TXT, AAAA, A, SRV, for the C7
witness. -/
def c7Records : List RR :=
  [RR.txt "n." ["v=1"], RR.aaaa "n." c7IPv6, RR.a "n." [10, 0, 0, 5],
   RR.srv "n." "h." 8080]

/-- The sending address for the C7 witness. -/
def c7Src : UDPAddr := { IP := [10, 0, 0, 9], Port := 5353, Zone := "eth1" }

/- ===== Basic lemmas on the heap and the name table ===== -/

theorem heapGet_append (l : List ServiceEntry) (e : ServiceEntry) (i : Nat) :
    heapGet (l ++ [e]) i =
      if i < l.length then heapGet l i
      else if i = l.length then some e else none := by
  induction l generalizing i with
  | nil => cases i <;> simp [heapGet]
  | cons x rest ih =>
      cases i with
      | zero => simp [heapGet]
      | succ n =>
          simp only [List.cons_append, heapGet, List.length_cons, List.append_eq]
          rw [ih n]
          split_ifs <;> first | rfl | omega

theorem heapGet_lt (l : List ServiceEntry) (i : Nat) (h : i < l.length) :
    ∃ e, heapGet l i = some e := by
  induction l generalizing i with
  | nil => simp at h
  | cons x rest ih =>
      cases i with
      | zero => exact ⟨x, rfl⟩
      | succ n => exact ih n (by simpa using Nat.lt_of_succ_lt_succ h)

theorem heapGet_modifyAt (l : List ServiceEntry) (i j : Nat) (f : ServiceEntry → ServiceEntry) :
    heapGet (modifyAt l i f) j =
      if j = i then (heapGet l i).map f else heapGet l j := by
  induction l generalizing i j with
  | nil => simp [modifyAt, heapGet]
  | cons x rest ih =>
      cases i with
      | zero =>
          cases j with
          | zero => simp [modifyAt, heapGet]
          | succ m => simp [modifyAt, heapGet]
      | succ n =>
          cases j with
          | zero => simp [modifyAt, heapGet]
          | succ m =>
              simp only [modifyAt, heapGet]
              rw [ih n m]
              split_ifs <;> first | rfl | omega

theorem modifyAt_length (l : List ServiceEntry) (i : Nat) (f : ServiceEntry → ServiceEntry) :
    (modifyAt l i f).length = l.length := by
  induction l generalizing i with
  | nil => rfl
  | cons x rest ih =>
      cases i with
      | zero => simp [modifyAt]
      | succ n => simp [modifyAt, ih n]

theorem countNat_append (l1 l2 : List Nat) (i : Nat) :
    countNat (l1 ++ l2) i = countNat l1 i + countNat l2 i := by
  induction l1 with
  | nil => simp [countNat]
  | cons x rest ih => simp [countNat, ih]; omega

theorem countNat_eq_zero (l : List Nat) (i : Nat) (h : i ∉ l) :
    countNat l i = 0 := by
  induction l with
  | nil => rfl
  | cons x rest ih =>
      simp only [List.mem_cons, not_or] at h
      simp [countNat, Ne.symm h.1, ih h.2]

theorem lookupName_mem (ns : List (String × Nat)) (nm : String) (i : Nat)
    (h : lookupName ns nm = some i) : (nm, i) ∈ ns := by
  induction ns with
  | nil => simp [lookupName] at h
  | cons p rest ih =>
      obtain ⟨k, j⟩ := p
      by_cases hk : k = nm
      · subst hk
        simp [lookupName] at h
        simp [h]
      · simp [lookupName, hk] at h
        exact List.mem_cons_of_mem _ (ih h)

theorem heapGet_ge (l : List ServiceEntry) (i : Nat) (h : l.length ≤ i) :
    heapGet l i = none := by
  induction l generalizing i with
  | nil => rfl
  | cons x rest ih =>
      cases i with
      | zero => simp at h
      | succ n => exact ih n (by simp at h; omega)

/- ===== Lemmas on ensureName, aliasName and setEntry ===== -/

theorem ensureName_found (s : QState) (nm : String) (i : Nat)
    (h : lookupName s.names nm = some i) : ensureName s nm = (s, i) := by
  simp [ensureName, h]

theorem ensureName_lookup (s : QState) (nm : String) :
    lookupName (ensureName s nm).1.names nm = some (ensureName s nm).2 := by
  unfold ensureName
  cases h : lookupName s.names nm with
  | some i => simpa using h
  | none => simp [lookupName]

@[simp] theorem ensureName_outs (s : QState) (nm : String) :
    (ensureName s nm).1.outs = s.outs := by
  unfold ensureName
  cases h : lookupName s.names nm <;> simp

theorem ensureName_len_le (s : QState) (nm : String) :
    s.heap.length ≤ (ensureName s nm).1.heap.length := by
  unfold ensureName
  cases h : lookupName s.names nm <;> simp

theorem ensureName_namesOK (s : QState) (nm : String) (h : namesOK s = true) :
    namesOK (ensureName s nm).1 = true := by
  unfold ensureName
  cases hl : lookupName s.names nm with
  | some i => simpa using h
  | none =>
      simp only [namesOK, List.all_eq_true, decide_eq_true_eq] at h ⊢
      intro p hp
      simp only [List.mem_cons] at hp
      rcases hp with rfl | hp
      · simp
      · have := h p hp
        simp only [List.length_append, List.length_cons]
        omega

theorem ensureName_idx (s : QState) (nm : String) (h : namesOK s = true) :
    (ensureName s nm).2 < (ensureName s nm).1.heap.length := by
  unfold ensureName
  cases hl : lookupName s.names nm with
  | some i =>
      have hm := lookupName_mem s.names nm i hl
      simp only [namesOK, List.all_eq_true, decide_eq_true_eq] at h
      simpa using h (nm, i) hm
  | none => simp

theorem ensureName_heapGet (s : QState) (nm : String) (i : Nat) (h : i < s.heap.length) :
    heapGet (ensureName s nm).1.heap i = heapGet s.heap i := by
  unfold ensureName
  cases hl : lookupName s.names nm with
  | some j => rfl
  | none => simp [heapGet_append, h]

theorem ensureName_sentAt (s : QState) (nm : String) (i : Nat) :
    sentAt (ensureName s nm).1 i = sentAt s i := by
  unfold ensureName
  cases hl : lookupName s.names nm with
  | some j => rfl
  | none =>
      unfold sentAt
      simp only [heapGet_append]
      split_ifs with h1 h2
      · rfl
      · subst h2
        rw [heapGet_ge s.heap s.heap.length (Nat.le_refl _)]
      · rw [heapGet_ge s.heap i (by omega)]

theorem ensureName_srcIPAt (s : QState) (nm : String) (i : Nat) (h : i < s.heap.length) :
    srcIPAt (ensureName s nm).1 i = srcIPAt s i := by
  unfold srcIPAt
  rw [ensureName_heapGet s nm i h]

theorem aliasName_heap (s : QState) (src dst : String) :
    (aliasName s src dst).heap = (ensureName s src).1.heap := rfl

@[simp] theorem aliasName_outs (s : QState) (src dst : String) :
    (aliasName s src dst).outs = s.outs := by
  simp [aliasName]

theorem aliasName_sentAt (s : QState) (src dst : String) (i : Nat) :
    sentAt (aliasName s src dst) i = sentAt s i := by
  have h := ensureName_sentAt s src i
  simpa [aliasName, sentAt] using h

theorem aliasName_namesOK (s : QState) (src dst : String) (h : namesOK s = true) :
    namesOK (aliasName s src dst) = true := by
  have h1 := ensureName_namesOK s src h
  have h2 := ensureName_idx s src h
  simp only [aliasName, namesOK, List.all_eq_true, decide_eq_true_eq] at h1 ⊢
  intro p hp
  rcases List.mem_cons.mp hp with rfl | hp
  · simpa using h2
  · exact h1 p hp

theorem aliasName_len_le (s : QState) (src dst : String) :
    s.heap.length ≤ (aliasName s src dst).heap.length := by
  have h := ensureName_len_le s src
  simpa [aliasName] using h

@[simp] theorem setEntry_outs (s : QState) (i : Nat) (f : ServiceEntry → ServiceEntry) :
    (setEntry s i f).outs = s.outs := rfl

@[simp] theorem setEntry_names (s : QState) (i : Nat) (f : ServiceEntry → ServiceEntry) :
    (setEntry s i f).names = s.names := rfl

@[simp] theorem setEntry_len (s : QState) (i : Nat) (f : ServiceEntry → ServiceEntry) :
    (setEntry s i f).heap.length = s.heap.length := by
  simp [setEntry, modifyAt_length]

theorem setEntry_namesOK (s : QState) (i : Nat) (f : ServiceEntry → ServiceEntry)
    (h : namesOK s = true) : namesOK (setEntry s i f) = true := by
  simp only [namesOK, List.all_eq_true] at h ⊢
  simpa [setEntry, modifyAt_length] using h

theorem sentAt_setEntry (s : QState) (i j : Nat) (f : ServiceEntry → ServiceEntry)
    (hf : ∀ e, (f e).sent = e.sent) :
    sentAt (setEntry s i f) j = sentAt s j := by
  unfold sentAt setEntry
  simp only [heapGet_modifyAt]
  split_ifs with h
  · subst h
    cases heapGet s.heap j <;> simp [hf]
  · rfl

theorem srcIPAt_setEntry (s : QState) (i j : Nat) (f : ServiceEntry → ServiceEntry)
    (hf : ∀ e, (f e).SrcIP = e.SrcIP) :
    srcIPAt (setEntry s i f) j = srcIPAt s j := by
  unfold srcIPAt setEntry
  simp only [heapGet_modifyAt]
  split_ifs with h
  · subst h
    cases heapGet s.heap j <;> simp [hf]
  · rfl

theorem sentOptAt_setEntry (s : QState) (i j : Nat) (f : ServiceEntry → ServiceEntry)
    (hf : ∀ e, (f e).sent = e.sent) :
    sentOptAt (setEntry s i f) j = sentOptAt s j := by
  unfold sentOptAt setEntry
  simp only [heapGet_modifyAt]
  split_ifs with h
  · subst h
    cases heapGet s.heap j <;> simp [hf]
  · rfl

/- ===== Lemmas on processRecord ===== -/

theorem processRecord_outs (src : UDPAddr) (s : QState) (rr : RR) :
    (processRecord src s rr).1.outs = s.outs := by
  cases rr with
  | ptr hn p => simp [processRecord]
  | srv n t po =>
      simp only [processRecord]
      split <;> simp
  | txt n l => simp [processRecord]
  | a n ip => simp [processRecord]
  | aaaa n ip => simp [processRecord]
  | other => rfl

theorem processRecord_namesOK (src : UDPAddr) (s : QState) (rr : RR)
    (h : namesOK s = true) : namesOK (processRecord src s rr).1 = true := by
  cases rr with
  | ptr hn p => exact ensureName_namesOK s p h
  | srv n t po =>
      simp only [processRecord]
      split
      · exact setEntry_namesOK _ _ _ (ensureName_namesOK _ _ (aliasName_namesOK s n t h))
      · exact setEntry_namesOK _ _ _ (ensureName_namesOK _ _ h)
  | txt n l => exact setEntry_namesOK _ _ _ (ensureName_namesOK _ _ h)
  | a n ip => exact setEntry_namesOK _ _ _ (ensureName_namesOK _ _ h)
  | aaaa n ip => exact setEntry_namesOK _ _ _ (ensureName_namesOK _ _ h)
  | other => exact h

theorem processRecord_len_le (src : UDPAddr) (s : QState) (rr : RR) :
    s.heap.length ≤ (processRecord src s rr).1.heap.length := by
  cases rr with
  | ptr hn p => exact ensureName_len_le s p
  | srv n t po =>
      simp only [processRecord]
      split
      · rw [setEntry_len]
        exact Nat.le_trans (aliasName_len_le s n t) (ensureName_len_le _ n)
      · rw [setEntry_len]
        exact ensureName_len_le s n
  | txt n l =>
      simp only [processRecord]
      rw [setEntry_len]
      exact ensureName_len_le s n
  | a n ip =>
      simp only [processRecord]
      rw [setEntry_len]
      exact ensureName_len_le s n
  | aaaa n ip =>
      simp only [processRecord]
      rw [setEntry_len]
      exact ensureName_len_le s n
  | other => exact Nat.le_refl _

theorem processRecord_idx (src : UDPAddr) (s : QState) (rr : RR)
    (h : namesOK s = true) (i : Nat)
    (hr : (processRecord src s rr).2 = some i) :
    i < (processRecord src s rr).1.heap.length := by
  cases rr with
  | ptr hn p =>
      simp only [processRecord] at hr ⊢
      cases hr
      exact ensureName_idx s p h
  | srv n t po =>
      simp only [processRecord] at hr ⊢
      split at hr <;> split <;> simp_all <;> subst hr
      · exact ensureName_idx _ n (aliasName_namesOK s n t h)
      · exact ensureName_idx _ n h
  | txt n l =>
      simp only [processRecord] at hr ⊢
      cases hr
      rw [setEntry_len]
      exact ensureName_idx s n h
  | a n ip =>
      simp only [processRecord] at hr ⊢
      cases hr
      rw [setEntry_len]
      exact ensureName_idx s n h
  | aaaa n ip =>
      simp only [processRecord] at hr ⊢
      cases hr
      rw [setEntry_len]
      exact ensureName_idx s n h
  | other => simp [processRecord] at hr

theorem processRecord_sentAt (src : UDPAddr) (s : QState) (rr : RR) (i : Nat) :
    sentAt (processRecord src s rr).1 i = sentAt s i := by
  cases rr with
  | ptr hn p => exact ensureName_sentAt s p i
  | srv n t po =>
      simp only [processRecord]
      split
      · rw [sentAt_setEntry]
        · rw [ensureName_sentAt, aliasName_sentAt]
        · intro e; rfl
      · rw [sentAt_setEntry]
        · rw [ensureName_sentAt]
        · intro e; rfl
  | txt n l =>
      simp only [processRecord]
      rw [sentAt_setEntry]
      · rw [ensureName_sentAt]
      · intro e; rfl
  | a n ip =>
      simp only [processRecord]
      rw [sentAt_setEntry]
      · rw [ensureName_sentAt]
      · intro e; rfl
  | aaaa n ip =>
      simp only [processRecord]
      rw [sentAt_setEntry]
      · rw [ensureName_sentAt]
      · intro e; rfl
  | other => rfl

theorem ensureName_sentOptAt (s : QState) (nm : String) (i : Nat) (h : i < s.heap.length) :
    sentOptAt (ensureName s nm).1 i = sentOptAt s i := by
  unfold sentOptAt
  rw [ensureName_heapGet s nm i h]

theorem aliasName_srcIPAt (s : QState) (src dst : String) (i : Nat) (h : i < s.heap.length) :
    srcIPAt (aliasName s src dst) i = srcIPAt s i := by
  have hh := ensureName_srcIPAt s src i h
  simpa [aliasName, srcIPAt] using hh

theorem aliasName_sentOptAt (s : QState) (src dst : String) (i : Nat) (h : i < s.heap.length) :
    sentOptAt (aliasName s src dst) i = sentOptAt s i := by
  have hh := ensureName_sentOptAt s src i h
  simpa [aliasName, sentOptAt] using hh

theorem processRecord_srcIPAt (src : UDPAddr) (s : QState) (rr : RR) (i : Nat)
    (h : i < s.heap.length) :
    srcIPAt (processRecord src s rr).1 i = srcIPAt s i := by
  cases rr with
  | ptr hn p => exact ensureName_srcIPAt s p i h
  | srv n t po =>
      simp only [processRecord]
      split
      · rw [srcIPAt_setEntry]
        · rw [ensureName_srcIPAt, aliasName_srcIPAt s n t i h]
          exact Nat.lt_of_lt_of_le h (aliasName_len_le s n t)
        · intro e; rfl
      · rw [srcIPAt_setEntry]
        · rw [ensureName_srcIPAt _ _ _ h]
        · intro e; rfl
  | txt n l =>
      simp only [processRecord]
      rw [srcIPAt_setEntry]
      · rw [ensureName_srcIPAt _ _ _ h]
      · intro e; rfl
  | a n ip =>
      simp only [processRecord]
      rw [srcIPAt_setEntry]
      · rw [ensureName_srcIPAt _ _ _ h]
      · intro e; rfl
  | aaaa n ip =>
      simp only [processRecord]
      rw [srcIPAt_setEntry]
      · rw [ensureName_srcIPAt _ _ _ h]
      · intro e; rfl
  | other => rfl

theorem processRecord_sentOptAt (src : UDPAddr) (s : QState) (rr : RR) (i : Nat)
    (h : i < s.heap.length) :
    sentOptAt (processRecord src s rr).1 i = sentOptAt s i := by
  cases rr with
  | ptr hn p => exact ensureName_sentOptAt s p i h
  | srv n t po =>
      simp only [processRecord]
      split
      · rw [sentOptAt_setEntry]
        · rw [ensureName_sentOptAt, aliasName_sentOptAt s n t i h]
          exact Nat.lt_of_lt_of_le h (aliasName_len_le s n t)
        · intro e; rfl
      · rw [sentOptAt_setEntry]
        · rw [ensureName_sentOptAt _ _ _ h]
        · intro e; rfl
  | txt n l =>
      simp only [processRecord]
      rw [sentOptAt_setEntry]
      · rw [ensureName_sentOptAt _ _ _ h]
      · intro e; rfl
  | a n ip =>
      simp only [processRecord]
      rw [sentOptAt_setEntry]
      · rw [ensureName_sentOptAt _ _ _ h]
      · intro e; rfl
  | aaaa n ip =>
      simp only [processRecord]
      rw [sentOptAt_setEntry]
      · rw [ensureName_sentOptAt _ _ _ h]
      · intro e; rfl
  | other => rfl

/- ===== Lemmas on the record fold of one message ===== -/

theorem processRecords_outs (src : UDPAddr) (l : List RR) :
    ∀ (s : QState) (o : Option Nat), (processRecords src (s, o) l).1.outs = s.outs := by
  induction l with
  | nil => intro s o; rfl
  | cons rr rest ih =>
      intro s o
      simp only [processRecords]
      rw [ih]
      exact processRecord_outs src s rr

theorem processRecords_sentAt (src : UDPAddr) (l : List RR) :
    ∀ (s : QState) (o : Option Nat) (i : Nat),
      sentAt (processRecords src (s, o) l).1 i = sentAt s i := by
  induction l with
  | nil => intro s o i; rfl
  | cons rr rest ih =>
      intro s o i
      simp only [processRecords]
      rw [ih]
      exact processRecord_sentAt src s rr i

theorem processRecords_wf (src : UDPAddr) (l : List RR) :
    ∀ (s : QState) (o : Option Nat), namesOK s = true →
      (∀ j, o = some j → j < s.heap.length) →
      namesOK (processRecords src (s, o) l).1 = true ∧
      s.heap.length ≤ (processRecords src (s, o) l).1.heap.length ∧
      (∀ i, (processRecords src (s, o) l).2 = some i →
        i < (processRecords src (s, o) l).1.heap.length) := by
  induction l with
  | nil =>
      intro s o hok hj
      exact ⟨hok, Nat.le_refl _, fun i hi => hj i hi⟩
  | cons rr rest ih =>
      intro s o hok hj
      simp only [processRecords]
      have hok2 := processRecord_namesOK src s rr hok
      have hlen := processRecord_len_le src s rr
      have hnew : ∀ j,
          (match (processRecord src s rr).2 with
           | some j' => some j' | none => o) = some j →
          j < (processRecord src s rr).1.heap.length := by
        intro j hjj
        cases hr : (processRecord src s rr).2 with
        | some j2 =>
            rw [hr] at hjj
            simp at hjj
            subst hjj
            exact processRecord_idx src s rr hok _ hr
        | none =>
            rw [hr] at hjj
            simp at hjj
            exact Nat.lt_of_lt_of_le (hj j hjj) hlen
      obtain ⟨a, b, c⟩ := ih (processRecord src s rr).1 _ hok2 hnew
      exact ⟨a, Nat.le_trans hlen b, c⟩

theorem processRecords_srcIPAt (src : UDPAddr) (l : List RR) :
    ∀ (s : QState) (o : Option Nat) (i : Nat), i < s.heap.length →
      srcIPAt (processRecords src (s, o) l).1 i = srcIPAt s i := by
  induction l with
  | nil => intro s o i h; rfl
  | cons rr rest ih =>
      intro s o i h
      simp only [processRecords]
      rw [ih _ _ i (Nat.lt_of_lt_of_le h (processRecord_len_le src s rr))]
      exact processRecord_srcIPAt src s rr i h

theorem processRecords_sentOptAt (src : UDPAddr) (l : List RR) :
    ∀ (s : QState) (o : Option Nat) (i : Nat), i < s.heap.length →
      sentOptAt (processRecords src (s, o) l).1 i = sentOptAt s i := by
  induction l with
  | nil => intro s o i h; rfl
  | cons rr rest ih =>
      intro s o i h
      simp only [processRecords]
      rw [ih _ _ i (Nat.lt_of_lt_of_le h (processRecord_len_le src s rr))]
      exact processRecord_sentOptAt src s rr i h

/- ===== The at-most-once emission invariant ===== -/

theorem sentAt_getEntryD (s : QState) (i : Nat) (h : i < s.heap.length) :
    sentAt s i = (getEntryD s i).sent := by
  obtain ⟨e, he⟩ := heapGet_lt s.heap i h
  unfold sentAt getEntryD
  rw [he]
  rfl

theorem sentAt_setEntry_self (s : QState) (i : Nat) (h : i < s.heap.length) :
    sentAt (setEntry s i (fun e => { e with sent := true })) i = true := by
  obtain ⟨e, he⟩ := heapGet_lt s.heap i h
  unfold sentAt setEntry
  simp [heapGet_modifyAt, he]


theorem sentAt_setEntry_ne (s : QState) (i j : Nat) (f : ServiceEntry → ServiceEntry)
    (h : j ≠ i) : sentAt (setEntry s i f) j = sentAt s j := by
  unfold sentAt setEntry
  simp only [heapGet_modifyAt, if_neg h]


@[simp] theorem pushOut_outs (s : QState) (i : Nat) :
    (pushOut s i).outs = s.outs ++ [i] := rfl

theorem sentAt_pushOut (s : QState) (i j : Nat) :
    sentAt (pushOut s i) j = sentAt s j := rfl

theorem namesOK_pushOut (s : QState) (i : Nat) :
    namesOK (pushOut s i) = namesOK s := rfl

theorem finishMsg_QInv (srcIP : List Nat) (t : QState) (o : Option Nat) (s : QState)
    (houts : t.outs = s.outs)
    (hsents : ∀ j, sentAt t j = sentAt s j)
    (hok1 : namesOK t = true)
    (hidx : ∀ i, o = some i → i < t.heap.length)
    (hsent : ∀ i ∈ s.outs, sentAt s i = true)
    (hcount : ∀ i, countNat s.outs i ≤ 1) :
    QInv (finishMsg srcIP t o) := by
  cases o with
  | none =>
      simp only [finishMsg]
      refine ⟨hok1, ?_, ?_⟩
      · intro i hi
        rw [houts] at hi
        rw [hsents]
        exact hsent i hi
      · intro i
        rw [houts]
        exact hcount i
  | some i =>
      have hi1 : i < t.heap.length := hidx i rfl
      simp only [finishMsg, ServiceEntry.complete, if_true]
      have hs2sent : ∀ j,
          sentAt (setEntry t i (fun e => { e with SrcIP := some srcIP })) j = sentAt s j := by
        intro j
        rw [sentAt_setEntry]
        · exact hsents j
        · intro e; rfl
      have hs2len : i < (setEntry t i (fun e => { e with SrcIP := some srcIP })).heap.length := by
        rw [setEntry_len]; exact hi1
      split
      · refine ⟨setEntry_namesOK _ _ _ hok1, ?_, ?_⟩
        · intro j hj
          simp only [setEntry_outs] at hj
          rw [houts] at hj
          rw [hs2sent]
          exact hsent j hj
        · intro j
          simp only [setEntry_outs]
          rw [houts]
          exact hcount j
      · rename_i hno
        have hfalse : sentAt s i = false := by
          have h1 := sentAt_getEntryD _ i hs2len
          rw [hs2sent] at h1
          rw [h1]
          simpa using hno
        have hnotmem : i ∉ s.outs := by
          intro hmem
          rw [hsent i hmem] at hfalse
          cases hfalse
        refine ⟨?_, ?_, ?_⟩
        · rw [namesOK_pushOut]
          exact setEntry_namesOK _ _ _ (setEntry_namesOK _ _ _ hok1)
        · intro j hj
          rw [pushOut_outs, setEntry_outs, setEntry_outs, houts] at hj
          rw [sentAt_pushOut]
          rcases List.mem_append.mp hj with hj | hj
          · by_cases hji : j = i
            · subst hji
              exact sentAt_setEntry_self _ _ hs2len
            · rw [sentAt_setEntry_ne _ _ _ _ hji, hs2sent]
              exact hsent j hj
          · simp only [List.mem_singleton] at hj
            subst hj
            exact sentAt_setEntry_self _ _ hs2len
        · intro j
          rw [pushOut_outs, setEntry_outs, setEntry_outs, houts, countNat_append]
          by_cases hji : j = i
          · subst hji
            rw [countNat_eq_zero s.outs j hnotmem]
            simp [countNat]
          · have h0 : countNat [i] j = 0 := by
              simp [countNat, Ne.symm hji]
            rw [h0]
            have := hcount j
            omega

theorem processMsg_QInv (s : QState) (m : MsgAddr) (h : QInv s) :
    QInv (processMsg s m) := by
  obtain ⟨hok, hsent, hcount⟩ := h
  obtain ⟨hok1, hlen1, hidx⟩ :=
    processRecords_wf m.src (m.msg.Answer ++ m.msg.Extra) s none hok
      (by intro j hj; simp at hj)
  exact finishMsg_QInv m.src.IP _ _ s
    (processRecords_outs m.src (m.msg.Answer ++ m.msg.Extra) s none)
    (processRecords_sentAt m.src (m.msg.Answer ++ m.msg.Extra) s none)
    hok1 hidx hsent hcount

theorem processMsgs_QInv (msgs : List MsgAddr) :
    ∀ (s : QState), QInv s → QInv (processMsgs s msgs) := by
  induction msgs with
  | nil => intro s h; exact h
  | cons m rest ih =>
      intro s h
      exact ih (processMsg s m) (processMsg_QInv s m h)

theorem initState_QInv : QInv initState := by
  refine ⟨rfl, ?_, ?_⟩
  · intro i hi
    simp [initState] at hi
  · intro i
    simp [initState, countNat]

/- ===== Claim C5 ===== -/

/-- C5: for every sequence of incoming messages, each ServiceEntry is
offered on the output channel at most once — once its `sent` flag is set it
is never emitted again, even if further completion-triggering records for
the same name arrive later. -/
theorem query_emits_each_entry_at_most_once (msgs : List MsgAddr) (i : Nat) :
    countNat (processMsgs initState msgs).outs i ≤ 1 :=
  (processMsgs_QInv msgs initState initState_QInv).2.2 i

/- ===== Claim C6 ===== -/

/-- C6: processing an SRV record whose Target differs from its own record
name leaves both the record name and the target name bound to the same
heap index — the identical ServiceEntry object, so a later field update
through either key is visible through the other. -/
theorem srv_alias_shares_one_entry (src : UDPAddr) (s : QState) (name target : String)
    (port : Nat) (h : target ≠ name) :
    ∃ i, lookupName (processRecord src s (RR.srv name target port)).1.names name = some i ∧
         lookupName (processRecord src s (RR.srv name target port)).1.names target = some i := by
  have hs1names : (aliasName s name target).names =
      (target, (ensureName s name).2) :: (ensureName s name).1.names := rfl
  have hlook_name : lookupName (aliasName s name target).names name =
      some (ensureName s name).2 := by
    rw [hs1names]
    simp only [lookupName, if_neg h]
    exact ensureName_lookup s name
  have hr : ensureName (aliasName s name target) name =
      (aliasName s name target, (ensureName s name).2) :=
    ensureName_found _ _ _ hlook_name
  refine ⟨(ensureName s name).2, ?_, ?_⟩
  · simp only [processRecord, if_pos h, hr, setEntry_names]
    exact hlook_name
  · simp only [processRecord, if_pos h, hr, setEntry_names]
    rw [hs1names]
    simp [lookupName]

/-- Witness for C6 at a concrete SRV record. -/
theorem srv_alias_shares_one_entry_witness :
    (("node1.local." : String) ≠ "node1._http._tcp.local.") ∧
    (∃ i, lookupName (processRecord { IP := [10, 0, 0, 5], Port := 5353, Zone := "" }
            initState (RR.srv "node1._http._tcp.local." "node1.local." 8080)).1.names
            "node1._http._tcp.local." = some i ∧
          lookupName (processRecord { IP := [10, 0, 0, 5], Port := 5353, Zone := "" }
            initState (RR.srv "node1._http._tcp.local." "node1.local." 8080)).1.names
            "node1.local." = some i) :=
  ⟨by decide,
   srv_alias_shares_one_entry { IP := [10, 0, 0, 5], Port := 5353, Zone := "" }
     initState "node1._http._tcp.local." "node1.local." 8080 (by decide)⟩

/- ===== Claim C8 ===== -/

/-- C8: processing an AAAA record stores an `AddrV6IPAddr` whose `Zone` is
the zone of the UDP source address when the carried IPv6 address is
link-local (unicast or multicast), and the empty zone otherwise. -/
theorem aaaa_zone_from_source (src : UDPAddr) (s : QState) (name : String) (ip : List Nat)
    (hok : namesOK s = true) :
    ∃ i, (processRecord src s (RR.aaaa name ip)).2 = some i ∧
      (heapGet (processRecord src s (RR.aaaa name ip)).1.heap i).map ServiceEntry.AddrV6IPAddr =
        some (some ⟨ip, if isLinkLocalUnicast ip || isLinkLocalMulticast ip
                        then src.Zone else ""⟩) := by
  refine ⟨(ensureName s name).2, rfl, ?_⟩
  have hidx := ensureName_idx s name hok
  obtain ⟨e, he⟩ := heapGet_lt _ _ hidx
  simp only [processRecord]
  unfold setEntry
  simp only [heapGet_modifyAt, if_pos rfl, he]
  rfl

/-- Witness for C8: a link-local address inherits the packet zone. -/
theorem aaaa_zone_from_source_witness :
    namesOK initState = true ∧
    (∃ i, (processRecord llSender initState (RR.aaaa "x." llPayload)).2 = some i ∧
      (heapGet (processRecord llSender initState (RR.aaaa "x." llPayload)).1.heap i).map
          ServiceEntry.AddrV6IPAddr =
        some (some ⟨llPayload, if isLinkLocalUnicast llPayload || isLinkLocalMulticast llPayload
                               then llSender.Zone else ""⟩)) :=
  ⟨rfl, aaaa_zone_from_source llSender initState "x." llPayload rfl⟩

/- ===== Claim C9 ===== -/

/-- C9: `alias` unconditionally rebinds `dst` to `src`'s entry: after the
call both names resolve to `src`'s index, `dst`'s former entry is no longer
reachable under `dst`, and the heap — in particular both old entries, with
all their accumulated fields — is unchanged, so nothing is merged. -/
theorem alias_rebinds_dst_dropping_old_entry (s : QState) (src dst : String) (i j : Nat)
    (hsrc : lookupName s.names src = some i)
    (hdst : lookupName s.names dst = some j)
    (hne : i ≠ j) :
    lookupName (aliasName s src dst).names src = some i ∧
    lookupName (aliasName s src dst).names dst = some i ∧
    (aliasName s src dst).heap = s.heap := by
  have hsd : src ≠ dst := by
    intro hh
    subst hh
    rw [hsrc] at hdst
    exact hne (Option.some.inj hdst)
  have hfound := ensureName_found s src i hsrc
  refine ⟨?_, ?_, ?_⟩
  · simp only [aliasName, hfound]
    simp only [lookupName, if_neg (Ne.symm hsd)]
    exact hsrc
  · simp only [aliasName, hfound]
    simp [lookupName]
  · simp only [aliasName, hfound]

/-- Witness for C9 on a table where both names hold distinct entries. -/
theorem alias_rebinds_dst_dropping_old_entry_witness :
    (lookupName twoEntryState.names "a." = some 0 ∧
     lookupName twoEntryState.names "b." = some 1 ∧ (0 : Nat) ≠ 1) ∧
    (lookupName (aliasName twoEntryState "a." "b.").names "a." = some 0 ∧
     lookupName (aliasName twoEntryState "a." "b.").names "b." = some 0 ∧
     (aliasName twoEntryState "a." "b.").heap = twoEntryState.heap) :=
  ⟨⟨by decide, by decide, by decide⟩,
   alias_rebinds_dst_dropping_old_entry twoEntryState "a." "b." 0 1
     (by decide) (by decide) (by decide)⟩

/- ===== Claim C10 ===== -/

theorem srcIPAt_pushOut (s : QState) (i j : Nat) :
    srcIPAt (pushOut s i) j = srcIPAt s j := rfl

theorem sentOptAt_pushOut (s : QState) (i j : Nat) :
    sentOptAt (pushOut s i) j = sentOptAt s j := rfl

theorem srcIPAt_setEntry_ne (s : QState) (i k : Nat) (f : ServiceEntry → ServiceEntry)
    (hk : k ≠ i) : srcIPAt (setEntry s i f) k = srcIPAt s k := by
  unfold srcIPAt setEntry
  simp only [heapGet_modifyAt, if_neg hk]

theorem sentOptAt_setEntry_ne (s : QState) (i k : Nat) (f : ServiceEntry → ServiceEntry)
    (hk : k ≠ i) : sentOptAt (setEntry s i f) k = sentOptAt s k := by
  unfold sentOptAt setEntry
  simp only [heapGet_modifyAt, if_neg hk]

theorem srcIPAt_setEntry_self_src (s : QState) (i : Nat) (x : List Nat)
    (h : i < s.heap.length) :
    srcIPAt (setEntry s i (fun e => { e with SrcIP := some x })) i = some (some x) := by
  obtain ⟨e, he⟩ := heapGet_lt s.heap i h
  unfold srcIPAt setEntry
  simp [heapGet_modifyAt, he]

theorem finishMsg_srcIPAt_self (x : List Nat) (t : QState) (i : Nat)
    (hi : i < t.heap.length) :
    srcIPAt (finishMsg x t (some i)) i = some (some x) := by
  simp only [finishMsg, ServiceEntry.complete, if_true]
  split
  · exact srcIPAt_setEntry_self_src t i x hi
  · rw [srcIPAt_pushOut, srcIPAt_setEntry]
    · exact srcIPAt_setEntry_self_src t i x hi
    · intro e; rfl

theorem finishMsg_untouched (x : List Nat) (t : QState) (i k : Nat) (hk : k ≠ i) :
    srcIPAt (finishMsg x t (some i)) k = srcIPAt t k ∧
    sentOptAt (finishMsg x t (some i)) k = sentOptAt t k := by
  simp only [finishMsg, ServiceEntry.complete, if_true]
  split
  · exact ⟨srcIPAt_setEntry_ne _ _ _ _ hk, sentOptAt_setEntry_ne _ _ _ _ hk⟩
  · constructor
    · rw [srcIPAt_pushOut, srcIPAt_setEntry_ne _ _ _ _ hk, srcIPAt_setEntry_ne _ _ _ _ hk]
    · rw [sentOptAt_pushOut, sentOptAt_setEntry_ne _ _ _ _ hk, sentOptAt_setEntry_ne _ _ _ _ hk]

theorem finishMsg_outs_sub (x : List Nat) (t : QState) (i : Nat) :
    ∀ j, j ∈ (finishMsg x t (some i)).outs → j ∈ t.outs ∨ j = i := by
  simp only [finishMsg, ServiceEntry.complete, if_true]
  split
  · intro j hj
    left
    simpa using hj
  · intro j hj
    rw [pushOut_outs, setEntry_outs, setEntry_outs] at hj
    rcases List.mem_append.mp hj with h | h
    · left; exact h
    · right; simpa using h

/-- C10: when one message carries records for several names, only the entry
touched by the last matching record (the fold's `inp`) gets its `SrcIP` set
from the packet and is the only entry that can be emitted; every other
pre-existing entry keeps its `SrcIP` and `sent` state. -/
theorem message_updates_only_last_touched_entry (s : QState) (m : MsgAddr) (i : Nat)
    (hok : namesOK s = true)
    (hlast : (processRecords m.src (s, none) (m.msg.Answer ++ m.msg.Extra)).2 = some i) :
    srcIPAt (processMsg s m) i = some (some m.src.IP) ∧
    (∀ k, k ≠ i → k < s.heap.length →
      srcIPAt (processMsg s m) k = srcIPAt s k ∧
      sentOptAt (processMsg s m) k = sentOptAt s k) ∧
    (∀ j, j ∈ (processMsg s m).outs → j ∈ s.outs ∨ j = i) := by
  obtain ⟨hok1, hlen1, hidx⟩ :=
    processRecords_wf m.src (m.msg.Answer ++ m.msg.Extra) s none hok
      (by intro j hj; simp at hj)
  have hi1 := hidx i hlast
  have hpm : processMsg s m =
      finishMsg m.src.IP (processRecords m.src (s, none) (m.msg.Answer ++ m.msg.Extra)).1
        (processRecords m.src (s, none) (m.msg.Answer ++ m.msg.Extra)).2 := rfl
  rw [hpm, hlast]
  refine ⟨finishMsg_srcIPAt_self _ _ _ hi1, ?_, ?_⟩
  · intro k hk hk2
    obtain ⟨h1, h2⟩ := finishMsg_untouched m.src.IP _ i k hk
    refine ⟨?_, ?_⟩
    · rw [h1]
      exact processRecords_srcIPAt m.src (m.msg.Answer ++ m.msg.Extra) s none k hk2
    · rw [h2]
      exact processRecords_sentOptAt m.src (m.msg.Answer ++ m.msg.Extra) s none k hk2
  · intro j hj
    rcases finishMsg_outs_sub m.src.IP _ i j hj with h | h
    · left
      rwa [processRecords_outs] at h
    · right
      exact h

/-- Witness for C10: a message with A records for `"a."` then `"b."` dispatched
against a table already holding both entries — only `"b."` (index 1) is
updated and emitted. -/
theorem message_updates_only_last_touched_entry_witness :
    (namesOK twoEntryState = true ∧
     (processRecords twoNameMsg.src (twoEntryState, none)
        (twoNameMsg.msg.Answer ++ twoNameMsg.msg.Extra)).2 = some 1) ∧
    (srcIPAt (processMsg twoEntryState twoNameMsg) 1 = some (some twoNameMsg.src.IP) ∧
     (∀ k, k ≠ 1 → k < twoEntryState.heap.length →
       srcIPAt (processMsg twoEntryState twoNameMsg) k = srcIPAt twoEntryState k ∧
       sentOptAt (processMsg twoEntryState twoNameMsg) k = sentOptAt twoEntryState k) ∧
     (∀ j, j ∈ (processMsg twoEntryState twoNameMsg).outs →
       j ∈ twoEntryState.outs ∨ j = 1)) :=
  ⟨⟨by decide, by decide⟩,
   message_updates_only_last_touched_entry twoEntryState twoNameMsg 1
     (by decide) (by decide)⟩

/- ===== Claim C1 ===== -/

/-- C1 (the code does not do this): `QueryContext` iterates over copies of
the parameters, so the list it dispatches still carries the empty `Domain`
and zero `Timeout`; applying the loop body's defaulting to the list would
change it. -/
theorem queryContext_dispatches_undefaulted_params :
    queryContextDispatchedParams [{ Service := "_http._tcp" }] =
      [{ Service := "_http._tcp" }] ∧
    (queryContextDispatchedParams [{ Service := "_http._tcp" }]).map QueryParam.Domain
      = [""] ∧
    (queryContextDispatchedParams [{ Service := "_http._tcp" }]).map QueryParam.Timeout
      = [0] ∧
    ([{ Service := "_http._tcp" }] : List QueryParam).map defaultedParam ≠
      queryContextDispatchedParams [{ Service := "_http._tcp" }] := by
  refine ⟨rfl, rfl, rfl, ?_⟩
  decide

/- ===== Claim C2 ===== -/

/-- C2 (the code does not do this): a fully-bound dual-stack client has all
four sockets open, yet `newClient` spawns `recv` tasks only on the two IPv4
sockets; no task reads the non-nil IPv6 sockets. -/
theorem newClient_starts_no_ipv6_reader :
    newClientModel true true true true true true =
      Except.ok ⟨true, true, true, true, true, true⟩ ∧
    openSockets ⟨true, true, true, true, true, true⟩ = allSocketKinds ∧
    activeReaderSockets ⟨true, true, true, true, true, true⟩ =
      [SocketKind.ipv4Unicast, SocketKind.ipv4Multicast] ∧
    SocketKind.ipv6Unicast ∈ openSockets ⟨true, true, true, true, true, true⟩ ∧
    SocketKind.ipv6Unicast ∉ activeReaderSockets ⟨true, true, true, true, true, true⟩ ∧
    SocketKind.ipv6Multicast ∈ openSockets ⟨true, true, true, true, true, true⟩ ∧
    SocketKind.ipv6Multicast ∉ activeReaderSockets ⟨true, true, true, true, true, true⟩ :=
  ⟨rfl, rfl, rfl, by decide, by decide, by decide, by decide⟩

/- ===== Claim C3 ===== -/

/-- C3 (the code does not do this): with the IPv4 unicast and IPv6
multicast binds failing, no protocol has both of its sockets, yet
`newClient` returns a client — IPv6 stays enabled holding only its unicast
socket — instead of failing: the unicast+multicast pairing check exists
only for IPv4. -/
theorem newClient_succeeds_with_no_usable_protocol :
    newClientModel true true false true true false =
      Except.ok ⟨false, true, false, true, false, false⟩ ∧
    ClientModel.ipv4Usable ⟨false, true, false, true, false, false⟩ = false ∧
    ClientModel.ipv6Usable ⟨false, true, false, true, false, false⟩ = false ∧
    (⟨false, true, false, true, false, false⟩ : ClientModel).use_ipv6 = true ∧
    (⟨false, true, false, true, false, false⟩ : ClientModel).ipv6UnicastConn = true ∧
    (⟨false, true, false, true, false, false⟩ : ClientModel).ipv6MulticastConn = false :=
  ⟨rfl, rfl, rfl, rfl, rfl, rfl⟩

/- ===== Claim C4 ===== -/

/-- C4 (partly refuted by the code): the correlation loop's deadline is the
fixed 2-second `time.After` window — not the 5-second per-invocation
`Timeout` in the dispatched parameters — while the nil return on deadline
does hold for every message sequence. -/
theorem query_waits_fixed_two_seconds :
    queryWindowNanos [{ Service := "_http._tcp", Timeout := 5000000000 }] = 2000000000 ∧
    queryWindowNanos [{ Service := "_http._tcp", Timeout := 5000000000 }] ≠ 5000000000 ∧
    (∀ msgs : List MsgAddr, (queryRun msgs).2 = none) :=
  ⟨by decide, by decide, fun msgs => rfl⟩

/- ===== Claim C7: order-independence of the field merge ===== -/

theorem step_srv (src : UDPAddr) (s : QState) (nm tgt : String) (p i : Nat)
    (hl : lookupName s.names nm = some i) :
    (processRecord src s (RR.srv nm tgt p)).2 = some i ∧
    lookupName (processRecord src s (RR.srv nm tgt p)).1.names nm = some i ∧
    (processRecord src s (RR.srv nm tgt p)).1.heap.length = s.heap.length ∧
    heapGet (processRecord src s (RR.srv nm tgt p)).1.heap i =
      (heapGet s.heap i).map (fun e => { e with Host := tgt, Port := p }) := by
  by_cases htn : tgt ≠ nm
  · have hfound := ensureName_found s nm i hl
    have hs1 : aliasName s nm tgt = { s with names := (tgt, i) :: s.names } := by
      simp only [aliasName, hfound]
    have hlk1 : lookupName (aliasName s nm tgt).names nm = some i := by
      rw [hs1]
      simp only [lookupName, if_neg htn]
      exact hl
    have hfound1 := ensureName_found (aliasName s nm tgt) nm i hlk1
    refine ⟨?_, ?_, ?_, ?_⟩
    · simp only [processRecord, if_pos htn, hfound1]
    · simp only [processRecord, if_pos htn, hfound1, setEntry_names]
      exact hlk1
    · simp only [processRecord, if_pos htn, hfound1, setEntry_len]
      rw [hs1]
    · simp only [processRecord, if_pos htn, hfound1]
      unfold setEntry
      simp only [heapGet_modifyAt, if_pos rfl, if_true]
      rw [hs1]
  · have hfound := ensureName_found s nm i hl
    refine ⟨?_, ?_, ?_, ?_⟩
    · simp only [processRecord, if_neg htn, hfound]
    · simp only [processRecord, if_neg htn, hfound, setEntry_names]
      exact hl
    · simp only [processRecord, if_neg htn, hfound, setEntry_len]
    · simp only [processRecord, if_neg htn, hfound]
      unfold setEntry
      simp [heapGet_modifyAt]

theorem step_txt (src : UDPAddr) (s : QState) (nm : String) (ts : List String) (i : Nat)
    (hl : lookupName s.names nm = some i) :
    (processRecord src s (RR.txt nm ts)).2 = some i ∧
    lookupName (processRecord src s (RR.txt nm ts)).1.names nm = some i ∧
    (processRecord src s (RR.txt nm ts)).1.heap.length = s.heap.length ∧
    heapGet (processRecord src s (RR.txt nm ts)).1.heap i =
      (heapGet s.heap i).map (fun e =>
        { e with Info := String.intercalate "|" ts, InfoFields := ts, hasTXT := true }) := by
  have hfound := ensureName_found s nm i hl
  refine ⟨?_, ?_, ?_, ?_⟩
  · simp only [processRecord, hfound]
  · simp only [processRecord, hfound, setEntry_names]
    exact hl
  · simp only [processRecord, hfound, setEntry_len]
  · simp only [processRecord, hfound]
    unfold setEntry
    simp [heapGet_modifyAt]

theorem step_a (src : UDPAddr) (s : QState) (nm : String) (ip : List Nat) (i : Nat)
    (hl : lookupName s.names nm = some i) :
    (processRecord src s (RR.a nm ip)).2 = some i ∧
    lookupName (processRecord src s (RR.a nm ip)).1.names nm = some i ∧
    (processRecord src s (RR.a nm ip)).1.heap.length = s.heap.length ∧
    heapGet (processRecord src s (RR.a nm ip)).1.heap i =
      (heapGet s.heap i).map (fun e => { e with Addr := some ip, AddrV4 := some ip }) := by
  have hfound := ensureName_found s nm i hl
  refine ⟨?_, ?_, ?_, ?_⟩
  · simp only [processRecord, hfound]
  · simp only [processRecord, hfound, setEntry_names]
    exact hl
  · simp only [processRecord, hfound, setEntry_len]
  · simp only [processRecord, hfound]
    unfold setEntry
    simp [heapGet_modifyAt]

theorem step_aaaa (src : UDPAddr) (s : QState) (nm : String) (ip : List Nat) (i : Nat)
    (hl : lookupName s.names nm = some i) :
    (processRecord src s (RR.aaaa nm ip)).2 = some i ∧
    lookupName (processRecord src s (RR.aaaa nm ip)).1.names nm = some i ∧
    (processRecord src s (RR.aaaa nm ip)).1.heap.length = s.heap.length ∧
    heapGet (processRecord src s (RR.aaaa nm ip)).1.heap i =
      (heapGet s.heap i).map (fun e =>
        { e with Addr := some ip, AddrV6 := some ip,
                 AddrV6IPAddr := some ⟨ip,
                   if isLinkLocalUnicast ip || isLinkLocalMulticast ip
                   then src.Zone else ""⟩ }) := by
  have hfound := ensureName_found s nm i hl
  refine ⟨?_, ?_, ?_, ?_⟩
  · simp only [processRecord, hfound]
  · simp only [processRecord, hfound, setEntry_names]
    exact hl
  · simp only [processRecord, hfound, setEntry_len]
  · simp only [processRecord, hfound]
    unfold setEntry
    simp [heapGet_modifyAt]

/-- Processing any sequence drawn from the four records of one name
accumulates exactly the fields of the records present, independent of
order: each field of the entry equals the record's value when that record
occurs in the list and is untouched otherwise. -/
theorem processRecords_union (src : UDPAddr) (nm tgt : String) (p : Nat) (ts : List String)
    (ip4 ip6 : List Nat) :
    ∀ (l : List RR) (s : QState) (i : Nat) (o : Option Nat),
      (∀ r ∈ l, r = RR.srv nm tgt p ∨ r = RR.txt nm ts ∨
        r = RR.a nm ip4 ∨ r = RR.aaaa nm ip6) →
      lookupName s.names nm = some i →
      i < s.heap.length →
      (processRecords src (s, o) l).2 = (if l = [] then o else some i) ∧
      lookupName (processRecords src (s, o) l).1.names nm = some i ∧
      (processRecords src (s, o) l).1.heap.length = s.heap.length ∧
      (∀ e, heapGet s.heap i = some e →
        ∃ e2, heapGet (processRecords src (s, o) l).1.heap i = some e2 ∧
          e2.Host = (if RR.srv nm tgt p ∈ l then tgt else e.Host) ∧
          e2.Port = (if RR.srv nm tgt p ∈ l then p else e.Port) ∧
          e2.Info = (if RR.txt nm ts ∈ l then String.intercalate "|" ts else e.Info) ∧
          e2.InfoFields = (if RR.txt nm ts ∈ l then ts else e.InfoFields) ∧
          e2.hasTXT = (if RR.txt nm ts ∈ l then true else e.hasTXT) ∧
          e2.AddrV4 = (if RR.a nm ip4 ∈ l then some ip4 else e.AddrV4) ∧
          e2.AddrV6 = (if RR.aaaa nm ip6 ∈ l then some ip6 else e.AddrV6) ∧
          e2.AddrV6IPAddr = (if RR.aaaa nm ip6 ∈ l then
              some ⟨ip6, if isLinkLocalUnicast ip6 || isLinkLocalMulticast ip6
                         then src.Zone else ""⟩
            else e.AddrV6IPAddr)) := by
  intro l
  induction l with
  | nil =>
      intro s i o hsub hl hil
      refine ⟨rfl, hl, rfl, ?_⟩
      intro e he
      refine ⟨e, he, ?_, ?_, ?_, ?_, ?_, ?_, ?_, ?_⟩ <;> simp
  | cons r t ih =>
      intro s i o hsub hl hil
      have hrmem := hsub r (List.mem_cons_self r t)
      have hsubt : ∀ r' ∈ t, r' = RR.srv nm tgt p ∨ r' = RR.txt nm ts ∨
          r' = RR.a nm ip4 ∨ r' = RR.aaaa nm ip6 :=
        fun r' hr' => hsub r' (List.mem_cons_of_mem _ hr')
      rcases hrmem with rfl | rfl | rfl | rfl
      · obtain ⟨h2, hlk, hlen, hget⟩ := step_srv src s nm tgt p i hl
        have hil2 : i < (processRecord src s (RR.srv nm tgt p)).1.heap.length := by
          rw [hlen]; exact hil
        obtain ⟨ih2, ihlk, ihlen, ihf⟩ :=
          ih (processRecord src s (RR.srv nm tgt p)).1 i (some i) hsubt hlk hil2
        refine ⟨?_, ?_, ?_, ?_⟩
        · simp only [processRecords, h2]
          rw [ih2]
          simp
        · simp only [processRecords, h2]
          exact ihlk
        · simp only [processRecords, h2]
          rw [ihlen, hlen]
        · intro e he
          have hget2 : heapGet (processRecord src s (RR.srv nm tgt p)).1.heap i =
              some { e with Host := tgt, Port := p } := by
            rw [hget, he]
            rfl
          obtain ⟨e2, he2, hH, hP, hI, hIF, hT, h4, h6, h6a⟩ := ihf _ hget2
          refine ⟨e2, ?_, ?_, ?_, ?_, ?_, ?_, ?_, ?_, ?_⟩
          · simp only [processRecords, h2]
            exact he2
          · rw [hH]; simp [List.mem_cons]
          · rw [hP]; simp [List.mem_cons]
          · rw [hI]; simp [List.mem_cons]
          · rw [hIF]; simp [List.mem_cons]
          · rw [hT]; simp [List.mem_cons]
          · rw [h4]; simp [List.mem_cons]
          · rw [h6]; simp [List.mem_cons]
          · rw [h6a]; simp [List.mem_cons]
      · obtain ⟨h2, hlk, hlen, hget⟩ := step_txt src s nm ts i hl
        have hil2 : i < (processRecord src s (RR.txt nm ts)).1.heap.length := by
          rw [hlen]; exact hil
        obtain ⟨ih2, ihlk, ihlen, ihf⟩ :=
          ih (processRecord src s (RR.txt nm ts)).1 i (some i) hsubt hlk hil2
        refine ⟨?_, ?_, ?_, ?_⟩
        · simp only [processRecords, h2]
          rw [ih2]
          simp
        · simp only [processRecords, h2]
          exact ihlk
        · simp only [processRecords, h2]
          rw [ihlen, hlen]
        · intro e he
          have hget2 : heapGet (processRecord src s (RR.txt nm ts)).1.heap i =
              some { e with Info := String.intercalate "|" ts,
                            InfoFields := ts, hasTXT := true } := by
            rw [hget, he]
            rfl
          obtain ⟨e2, he2, hH, hP, hI, hIF, hT, h4, h6, h6a⟩ := ihf _ hget2
          refine ⟨e2, ?_, ?_, ?_, ?_, ?_, ?_, ?_, ?_, ?_⟩
          · simp only [processRecords, h2]
            exact he2
          · rw [hH]; simp [List.mem_cons]
          · rw [hP]; simp [List.mem_cons]
          · rw [hI]; simp [List.mem_cons]
          · rw [hIF]; simp [List.mem_cons]
          · rw [hT]; simp [List.mem_cons]
          · rw [h4]; simp [List.mem_cons]
          · rw [h6]; simp [List.mem_cons]
          · rw [h6a]; simp [List.mem_cons]
      · obtain ⟨h2, hlk, hlen, hget⟩ := step_a src s nm ip4 i hl
        have hil2 : i < (processRecord src s (RR.a nm ip4)).1.heap.length := by
          rw [hlen]; exact hil
        obtain ⟨ih2, ihlk, ihlen, ihf⟩ :=
          ih (processRecord src s (RR.a nm ip4)).1 i (some i) hsubt hlk hil2
        refine ⟨?_, ?_, ?_, ?_⟩
        · simp only [processRecords, h2]
          rw [ih2]
          simp
        · simp only [processRecords, h2]
          exact ihlk
        · simp only [processRecords, h2]
          rw [ihlen, hlen]
        · intro e he
          have hget2 : heapGet (processRecord src s (RR.a nm ip4)).1.heap i =
              some { e with Addr := some ip4, AddrV4 := some ip4 } := by
            rw [hget, he]
            rfl
          obtain ⟨e2, he2, hH, hP, hI, hIF, hT, h4, h6, h6a⟩ := ihf _ hget2
          refine ⟨e2, ?_, ?_, ?_, ?_, ?_, ?_, ?_, ?_, ?_⟩
          · simp only [processRecords, h2]
            exact he2
          · rw [hH]; simp [List.mem_cons]
          · rw [hP]; simp [List.mem_cons]
          · rw [hI]; simp [List.mem_cons]
          · rw [hIF]; simp [List.mem_cons]
          · rw [hT]; simp [List.mem_cons]
          · rw [h4]; simp [List.mem_cons]
          · rw [h6]; simp [List.mem_cons]
          · rw [h6a]; simp [List.mem_cons]
      · obtain ⟨h2, hlk, hlen, hget⟩ := step_aaaa src s nm ip6 i hl
        have hil2 : i < (processRecord src s (RR.aaaa nm ip6)).1.heap.length := by
          rw [hlen]; exact hil
        obtain ⟨ih2, ihlk, ihlen, ihf⟩ :=
          ih (processRecord src s (RR.aaaa nm ip6)).1 i (some i) hsubt hlk hil2
        refine ⟨?_, ?_, ?_, ?_⟩
        · simp only [processRecords, h2]
          rw [ih2]
          simp
        · simp only [processRecords, h2]
          exact ihlk
        · simp only [processRecords, h2]
          rw [ihlen, hlen]
        · intro e he
          have hget2 : heapGet (processRecord src s (RR.aaaa nm ip6)).1.heap i =
              some { e with Addr := some ip6, AddrV6 := some ip6,
                            AddrV6IPAddr := some ⟨ip6,
                              if isLinkLocalUnicast ip6 || isLinkLocalMulticast ip6
                              then src.Zone else ""⟩ } := by
            rw [hget, he]
            rfl
          obtain ⟨e2, he2, hH, hP, hI, hIF, hT, h4, h6, h6a⟩ := ihf _ hget2
          refine ⟨e2, ?_, ?_, ?_, ?_, ?_, ?_, ?_, ?_, ?_⟩
          · simp only [processRecords, h2]
            exact he2
          · rw [hH]; simp [List.mem_cons]
          · rw [hP]; simp [List.mem_cons]
          · rw [hI]; simp [List.mem_cons]
          · rw [hIF]; simp [List.mem_cons]
          · rw [hT]; simp [List.mem_cons]
          · rw [h4]; simp [List.mem_cons]
          · rw [h6]; simp [List.mem_cons]
          · rw [h6a]; simp [List.mem_cons]

/-- Processing the first record of a name from the empty table is the same
as processing it against the table that already holds the fresh default
entry for that name. -/
theorem processRecord_init (src : UDPAddr) (nm tgt : String) (p : Nat) (ts : List String)
    (ip4 ip6 : List Nat) (r : RR)
    (h : r = RR.srv nm tgt p ∨ r = RR.txt nm ts ∨ r = RR.a nm ip4 ∨ r = RR.aaaa nm ip6) :
    processRecord src initState r = processRecord src (singletonState nm) r := by
  have hlook : lookupName (singletonState nm).names nm = some 0 := by
    simp [singletonState, lookupName]
  have hens : ensureName initState nm = (singletonState nm, 0) := by
    simp [ensureName, initState, lookupName, singletonState]
  have hens1 := ensureName_found _ _ _ hlook
  rcases h with rfl | rfl | rfl | rfl
  · by_cases htn : tgt ≠ nm
    · have ha : aliasName initState nm tgt = aliasName (singletonState nm) nm tgt := by
        simp [aliasName, hens, hens1]
      simp only [processRecord, if_pos htn, ha]
    · simp only [processRecord, if_neg htn, hens, hens1]
  · simp only [processRecord, hens, hens1]
  · simp only [processRecord, hens, hens1]
  · simp only [processRecord, hens, hens1]

theorem finishMsg_names (x : List Nat) (t : QState) (i : Nat) :
    (finishMsg x t (some i)).names = t.names := by
  simp only [finishMsg, ServiceEntry.complete, if_true]
  split <;> rfl

/-- The completion tail touches only `SrcIP`, `sent` and the log: the
merged data fields of the entry survive it. -/
theorem finishMsg_heapGet (x : List Nat) (t : QState) (i : Nat) (e2 : ServiceEntry)
    (he : heapGet t.heap i = some e2) :
    ∃ e3, heapGet (finishMsg x t (some i)).heap i = some e3 ∧
      e3.Host = e2.Host ∧ e3.Port = e2.Port ∧ e3.Info = e2.Info ∧
      e3.InfoFields = e2.InfoFields ∧ e3.hasTXT = e2.hasTXT ∧
      e3.AddrV4 = e2.AddrV4 ∧ e3.AddrV6 = e2.AddrV6 ∧
      e3.AddrV6IPAddr = e2.AddrV6IPAddr := by
  simp only [finishMsg, ServiceEntry.complete, if_true]
  split
  · refine ⟨{ e2 with SrcIP := some x }, ?_, rfl, rfl, rfl, rfl, rfl, rfl, rfl, rfl⟩
    unfold setEntry
    simp [heapGet_modifyAt, he]
  · refine ⟨{ e2 with SrcIP := some x, sent := true }, ?_, rfl, rfl, rfl, rfl, rfl, rfl, rfl, rfl⟩
    simp [pushOut, setEntry, heapGet_modifyAt, he]

/-- C7: for one SRV, one TXT, one A and one AAAA record of a single name,
delivered within one message in any order, the resulting entry holds the
union of the fields those records carry — host and port, info text, IPv4
and IPv6 addresses — independent of the processing order. -/
theorem entry_merges_union_of_fields_any_order
    (src : UDPAddr) (nm tgt : String) (p : Nat) (ts : List String) (ip4 ip6 : List Nat)
    (l : List RR)
    (hperm : l.Perm [RR.srv nm tgt p, RR.txt nm ts, RR.a nm ip4, RR.aaaa nm ip6]) :
    ∃ i e, lookupName (processMsg initState (⟨⟨l, []⟩, src⟩ : MsgAddr)).names nm
        = some i ∧
      heapGet (processMsg initState (⟨⟨l, []⟩, src⟩ : MsgAddr)).heap i = some e ∧
      e.Host = tgt ∧ e.Port = p ∧
      e.Info = String.intercalate "|" ts ∧ e.InfoFields = ts ∧ e.hasTXT = true ∧
      e.AddrV4 = some ip4 ∧ e.AddrV6 = some ip6 ∧
      e.AddrV6IPAddr = some ⟨ip6, if isLinkLocalUnicast ip6 || isLinkLocalMulticast ip6
                                  then src.Zone else ""⟩ := by
  have hsub : ∀ r ∈ l, r = RR.srv nm tgt p ∨ r = RR.txt nm ts ∨
      r = RR.a nm ip4 ∨ r = RR.aaaa nm ip6 := by
    intro r hr
    have hh := hperm.mem_iff.mp hr
    simpa using hh
  have hin1 : RR.srv nm tgt p ∈ l := hperm.mem_iff.mpr (by simp)
  have hin2 : RR.txt nm ts ∈ l := hperm.mem_iff.mpr (by simp)
  have hin3 : RR.a nm ip4 ∈ l := hperm.mem_iff.mpr (by simp)
  have hin4 : RR.aaaa nm ip6 ∈ l := hperm.mem_iff.mpr (by simp)
  have hlen4 := hperm.length_eq
  cases l with
  | nil => simp at hlen4
  | cons r t =>
      have hr0 := processRecord_init src nm tgt p ts ip4 ip6 r
        (hsub r (List.mem_cons_self r t))
      have hstep : processRecords src (initState, none) (r :: t) =
          processRecords src (singletonState nm, none) (r :: t) := by
        simp only [processRecords, hr0]
      have hl0 : lookupName (singletonState nm).names nm = some 0 := by
        simp [singletonState, lookupName]
      have hil0 : 0 < (singletonState nm).heap.length := by
        simp [singletonState]
      obtain ⟨h2, hlk, hlen, hf⟩ := processRecords_union src nm tgt p ts ip4 ip6 (r :: t)
        (singletonState nm) 0 none hsub hl0 hil0
      have h2x : (processRecords src (singletonState nm, none) (r :: t)).2 = some 0 := by
        rw [h2]; simp
      obtain ⟨e2, he2, hH, hP, hI, hIF, hT, h4, h6, h6a⟩ :=
        hf { Name := nm } (by simp [singletonState, heapGet])
      have hpm : processMsg initState (⟨⟨r :: t, []⟩, src⟩ : MsgAddr) =
          finishMsg src.IP (processRecords src (initState, none) ((r :: t) ++ [])).1
            (processRecords src (initState, none) ((r :: t) ++ [])).2 := rfl
      rw [List.append_nil] at hpm
      rw [hstep, h2x] at hpm
      obtain ⟨e3, he3, g1, g2, g3, g4, g5, g6, g7, g8⟩ :=
        finishMsg_heapGet src.IP
          (processRecords src (singletonState nm, none) (r :: t)).1 0 e2 he2
      refine ⟨0, e3, ?_, ?_, ?_, ?_, ?_, ?_, ?_, ?_, ?_, ?_⟩
      · rw [hpm, finishMsg_names]
        exact hlk
      · rw [hpm]
        exact he3
      · rw [g1, hH, if_pos hin1]
      · rw [g2, hP, if_pos hin1]
      · rw [g3, hI, if_pos hin2]
      · rw [g4, hIF, if_pos hin2]
      · rw [g5, hT, if_pos hin2]
      · rw [g6, h4, if_pos hin3]
      · rw [g7, h6, if_pos hin4]
      · rw [g8, h6a, if_pos hin4]

/-- Witness for C7: the four records delivered in the order TXT, AAAA, A,
SRV still produce the full union entry. -/
theorem entry_merges_union_of_fields_any_order_witness :
    (c7Records.Perm [RR.srv "n." "h." 8080, RR.txt "n." ["v=1"],
      RR.a "n." [10, 0, 0, 5], RR.aaaa "n." c7IPv6]) ∧
    (∃ i e, lookupName (processMsg initState (⟨⟨c7Records, []⟩, c7Src⟩ : MsgAddr)).names "n."
        = some i ∧
      heapGet (processMsg initState (⟨⟨c7Records, []⟩, c7Src⟩ : MsgAddr)).heap i = some e ∧
      e.Host = "h." ∧ e.Port = 8080 ∧
      e.Info = String.intercalate "|" ["v=1"] ∧ e.InfoFields = ["v=1"] ∧ e.hasTXT = true ∧
      e.AddrV4 = some [10, 0, 0, 5] ∧ e.AddrV6 = some c7IPv6 ∧
      e.AddrV6IPAddr = some ⟨c7IPv6, if isLinkLocalUnicast c7IPv6 || isLinkLocalMulticast c7IPv6
                                     then c7Src.Zone else ""⟩) :=
  ⟨by decide,
   entry_merges_union_of_fields_any_order c7Src "n." "h." 8080 ["v=1"] [10, 0, 0, 5]
     c7IPv6 c7Records (by decide)⟩
